import Mathlib

/-!
Verification development for the flight-planner analysis scripts.

The repository has two Python programs:
  * `analyze_airport_database.py` — profiles an SQLite airport/runway
    database (percentile ladders, categorical frequencies) and emits
    piecewise sampling rules as Rust code snippets;
  * `analyze_flight_log.py` — parses timestamped log lines recording
    operation durations, normalizes them to microseconds and prints
    aggregate statistics per operation.

Every definition below is a shallow embedding translated from the source.
Numeric values (SQLite numeric columns, Python floats) are modelled as
rationals — the claims settled here are about the algorithms, not about
binary floating-point rounding.  SQL result sets are modelled as lists of
the values of the queried column.
-/

namespace AirportDb

/-- SQLite `CAST(expr AS INTEGER)` and Python `int(...)`: truncation
toward zero. -/
def castInt (q : ℚ) : ℤ :=
  if 0 ≤ q then ⌊q⌋ else ⌈q⌉

/-- The ascending `ORDER BY column` scan over the values of one column. -/
def sortAsc (rows : List ℚ) : List ℚ :=
  List.insertionSort (· ≤ ·) rows

/-- Embeds `SELECT column FROM t ORDER BY column LIMIT 1 OFFSET k`: the
first row, if any, after dropping `k` of the ascending-ordered values.
A negative OFFSET behaves like 0 in SQLite, hence the `Int.toNat`. -/
def selectOffset (rows : List ℚ) (k : ℤ) : Option ℚ :=
  ((sortAsc rows).drop k.toNat).head?

/-- Embeds `get_percentile(cursor, table, column, percentile)` from
`analyze_airport_database.py`.  The SQL it executes is

  SELECT column FROM table ORDER BY column LIMIT 1
  OFFSET (SELECT CAST(COUNT(*) * ? AS INTEGER) FROM table)

and the Python wrapper returns `result[0] if result else None`.
`rows` is the content of the queried column in `table`; `none` models
Python `None` (an empty result set). -/
def get_percentile (rows : List ℚ) (percentile : ℚ) : Option ℚ :=
  selectOffset rows (castInt (rows.length * percentile))

/-- The inline percentile queries of `analyze_runways` and
`generate_rust_code` carry a `WHERE` filter (`Length > 0`, `Width > 0`);
both the outer select and the OFFSET subquery apply it, so they are
`get_percentile` over the filtered rows. -/
def get_percentile_where (rows : List ℚ) (pred : ℚ → Bool) (percentile : ℚ) :
    Option ℚ :=
  get_percentile (rows.filter pred) percentile

/-- The text `get_percentile` interpolates its `table` and `column`
arguments into (the f-string of `analyze_airport_database.py`, lines
17-23, with its literal layout). -/
def get_percentile_query (table column : String) : String :=
  "\n        SELECT " ++ column ++ " \n        FROM " ++ table ++
    " \n        ORDER BY " ++ column ++
    " \n        LIMIT 1 \n        OFFSET (SELECT CAST(COUNT(*) * ? AS INTEGER) FROM "
    ++ table ++ ")\n    "

/-- What `get_percentile` does before running a query: it builds the query
text directly from its arguments.  The source performs no validation of
either identifier — there is no allow-list check and no error path. -/
def get_percentile_build (table column : String) : Except String String :=
  Except.ok (get_percentile_query table column)

/-- Modelled from the spec: the fixed allow-list of table names ("only
known schema names", spec section 4.1); the code itself has no such list. -/
def specAllowedTables : List String := ["airports", "runways"]

/-- Modelled from the spec: the fixed allow-list of column names of the
two tables (spec sections 4.1 and 6); the code itself has no such list. -/
def specAllowedColumns : List String :=
  ["Elevation", "Latitude", "Longtitude", "Length", "Width", "Surface",
    "AirportID"]

/-- Modelled from the spec: query construction as section 4.1 demands it —
an unknown table or column identifier fails with a Configuration error
before any query text is built. -/
def spec_get_percentile_build (table column : String) :
    Except String String :=
  if specAllowedTables.contains table ∧ specAllowedColumns.contains column
  then Except.ok (get_percentile_query table column)
  else Except.error "Configuration"

/-- Every (table, column) pair the program ever interpolates into query
text: `get_percentile` is called only as
`get_percentile(cursor, 'airports', 'Elevation', p)`, and the inline
percentile queries of `analyze_runways` / `generate_rust_code` use
`runways.Length` and `runways.Width`. -/
def interpolatedTableColumns : List (String × String) :=
  [("airports", "Elevation"), ("runways", "Length"), ("runways", "Width")]

/-- The band-selection thresholds of the emitted elevation sampling rule:
the literals 0.25, 0.50, 0.75, 0.90, 0.95 compared against
`elevation_rand` in `generate_rust_code`. -/
def elevation_thresholds : List ℚ := [1/4, 1/2, 3/4, 9/10, 19/20]

/-- Band-selection thresholds of the emitted runway-length rule. -/
def length_thresholds : List ℚ := [1/4, 1/2, 3/4, 9/10]

/-- Band-selection thresholds of the emitted runway-width rule. -/
def width_thresholds : List ℚ := [1/4, 1/2, 3/4]

/-- Selection probability of each band of a piecewise rule whose guards
are `rand < t` for successive thresholds `t`, with a final catch-all
band: the widths of the intervals cut out of [0, 1) by the thresholds. -/
def bandProbs (thresholds : List ℚ) : List ℚ :=
  List.zipWith (fun a b => a - b) (thresholds ++ [1]) (0 :: thresholds)

/-- The (lower bound, upper bound) ranges of the emitted elevation rule:
`rng.random_range(-210..int(p25))` up to `rng.random_range(int(p95)..14422)`,
with Python `int(...)` truncation on each percentile value. -/
def elevation_rule (p25 p50 p75 p90 p95 : ℚ) : List (ℤ × ℤ) :=
  [(-210, castInt p25), (castInt p25, castInt p50),
    (castInt p50, castInt p75), (castInt p75, castInt p90),
    (castInt p90, castInt p95), (castInt p95, 14422)]

/-- The ranges of the emitted runway-length rule, final band
`rng.random_range(int(p90)..21119)`. -/
def length_rule (p25 p50 p75 p90 : ℚ) : List (ℤ × ℤ) :=
  [(80, castInt p25), (castInt p25, castInt p50), (castInt p50, castInt p75),
    (castInt p75, castInt p90), (castInt p90, 21119)]

/-- The ranges of the emitted runway-width rule.  Its final (catch-all)
band is `rng.random_range(int(p75)..int(p90))`: the upper bound is the
observed 90th-percentile value, not a configured ceiling. -/
def width_rule (p25 p50 p75 p90 : ℚ) : List (ℤ × ℤ) :=
  [(9, castInt p25), (castInt p25, castInt p50), (castInt p50, castInt p75),
    (castInt p75, castInt p90)]

/-- Adjacent bands of a piecewise rule are contiguous: each band's lower
bound is the previous band's upper bound. -/
def contiguous (bands : List (ℤ × ℤ)) : Prop :=
  bands.Chain' (fun a b => a.2 = b.1)

/-- The width rule exactly as `generate_rust_code` builds it from the
database: the four percentile values are fetched by the inline
`WHERE Width > 0` percentile queries (`cursor.fetchone()[0]` demands a
row, hence the `Option`). -/
def width_rule_of_data (rows : List ℚ) : Option (List (ℤ × ℤ)) := do
  let p25 ← get_percentile_where rows (fun w => 0 < w) (1/4)
  let p50 ← get_percentile_where rows (fun w => 0 < w) (1/2)
  let p75 ← get_percentile_where rows (fun w => 0 < w) (3/4)
  let p90 ← get_percentile_where rows (fun w => 0 < w) (9/10)
  pure (width_rule p25 p50 p75 p90)

end AirportDb

namespace FlightLog

/-- Python strings are modelled at character level. -/
abbrev Str := List Char

/-- Whitespace as used by Python `str.strip()` and the regex class `\s`
(restricted to the ASCII whitespace actually reachable in log lines). -/
def isPySpace (c : Char) : Bool := c.isWhitespace

/-- Numeric value of a decimal digit character. -/
def d2n (c : Char) : ℕ := c.toNat - '0'.toNat

/-- Worker for `replaceAll`, structurally recursive on a fuel bound of at
least the string's length (each step consumes at least one character, so
the fuel branch is never reached from `replaceAll`). -/
def replaceAllF (pat rep : Str) : ℕ → Str → Str
  | _, [] => []
  | 0, s => s
  | fuel + 1, c :: rest =>
    if pat ≠ [] ∧ pat.isPrefixOf (c :: rest) then
      rep ++ replaceAllF pat rep fuel ((c :: rest).drop pat.length)
    else
      c :: replaceAllF pat rep fuel rest

/-- Python `s.replace(pat, rep)`: replace every occurrence of `pat`,
scanning left to right, without rescanning the replacement text. -/
def replaceAll (pat rep s : Str) : Str := replaceAllF pat rep s.length s

/-- Python `str.strip()`: drop leading and trailing whitespace. -/
def trim (s : Str) : Str :=
  ((s.dropWhile isPySpace).reverse.dropWhile isPySpace).reverse

/-- Worker for `splitOnSub`, fuel-structural like `replaceAllF`; `cur`
is the current part, reversed. -/
def splitOnAuxF (sep : Str) : ℕ → Str → Str → List Str
  | _, cur, [] => [cur.reverse]
  | 0, cur, s => [cur.reverse ++ s]
  | fuel + 1, cur, c :: rest =>
    if sep ≠ [] ∧ sep.isPrefixOf (c :: rest) then
      cur.reverse :: splitOnAuxF sep fuel [] ((c :: rest).drop sep.length)
    else
      splitOnAuxF sep fuel (c :: cur) rest

/-- Python `s.split(sep)` for a non-empty separator: all parts, empty
parts included. -/
def splitOnSub (sep s : Str) : List Str := splitOnAuxF sep s.length [] s

/-- The character class `[\d.]` of `DURATION_PATTERN`. -/
def isNumChar (c : Char) : Bool := c.isDigit || c = '.'

/-- Value of a string of decimal digits. -/
def digitsVal (s : Str) : ℕ := s.foldl (fun acc c => 10 * acc + d2n c) 0

/-- Number of `.` characters in a string. -/
def countDots (s : Str) : ℕ := s.countP (fun c => c == '.')

/-- Whether the string has at least one decimal digit. -/
def hasDigit (s : Str) : Bool := s.any Char.isDigit

/-- Whether Python `float(s)` succeeds on a non-empty string drawn from
the class `[\d.]`: at most one dot and at least one digit (`"1."`,
`".5"` parse; `"."`, `"1.2.3"` raise ValueError). -/
def pyFloatValid (s : Str) : Bool :=
  decide (countDots s ≤ 1) && hasDigit s

/-- Mathematical value of a `[\d.]` string accepted by `float`:
integer part plus fractional part. -/
def decValue (s : Str) : ℚ :=
  let ip := s.takeWhile (fun c => c != '.')
  let fp := (s.dropWhile (fun c => c != '.')).drop 1
  (digitsVal ip : ℚ) + (digitsVal fp : ℚ) / (10 ^ fp.length)

/-- The unit alternation `(ns|µs|us|ms|s|m)` of `DURATION_PATTERN`, in
regex order: the first alternative matching at the current position wins
(nothing after the group constrains it, so no backtracking occurs). -/
def unitAlternatives : List Str :=
  ["ns".toList, "µs".toList, "us".toList, "ms".toList, "s".toList,
    "m".toList]

/-- Capture of the optional unit group at the head of `s`. -/
def matchUnit (s : Str) : Option Str :=
  unitAlternatives.find? (fun u => u.isPrefixOf s)

/-- The `if unit == ... : return ...` chain of `parse_duration`,
converting `value` to microseconds; the final `return None` of the Python
function is the fall-through `none`. -/
def applyUnit (unit : Str) (value : ℚ) : Option ℚ :=
  if unit = "ns".toList then some (value / 1000)
  else if unit = "µs".toList ∨ unit = "us".toList then some value
  else if unit = "ms".toList then some (value * 1000)
  else if unit = "s".toList then some (value * 1000000)
  else if unit = "m".toList then some (value * 60 * 1000000)
  else none

/-- Embeds `parse_duration(duration_str)` of `analyze_flight_log.py`.

The regex `([\d.]+)\s*(ns|µs|us|ms|s|m)?s?` is applied with `re.match`
(anchored at the start, trailing text ignored): group 1 is the maximal
leading run of `[\d.]`, and the match fails only when that run is empty
(everything else in the pattern is optional), in which case the function
logs and returns `None` (`Except.ok none`).  `float(match.group(1))`
raises ValueError on a run like `"1.2.3"`, an exception `parse_duration`
does not catch (`Except.error`). -/
def parse_duration (duration_str : Str) : Except String (Option ℚ) :=
  let s1 := replaceAll "main() is: ".toList [] duration_str
  let s2 := trim s1
  let s3 := replaceAll "Âµs".toList "µs".toList s2
  let numRun := s3.takeWhile isNumChar
  let rest := s3.dropWhile isNumChar
  if numRun = [] then Except.ok none
  else if pyFloatValid numRun then
    let unit := (matchUnit (rest.dropWhile isPySpace)).getD "µs".toList
    Except.ok (applyUnit unit (decValue numRun))
  else Except.error "ValueError"

/-- Boundary model of Python's `datetime.fromisoformat`, restricted to the
grammar fragment the log format uses (spec section 6:
`ISO-8601 timestamp`, tolerant of a trailing UTC marker — the caller has
already rewritten `"Z"` to `"+00:00"`): `YYYY-MM-DD` then `T` or a space,
then `HH:MM:SS`, optionally followed by `+00:00`.  The result is a
mixed-radix key that is strictly monotone in the chronological order, so
sorting by it agrees with sorting Python `datetime` values. -/
def parse_timestamp (s : Str) : Option ℕ :=
  match s with
  | y1 :: y2 :: y3 :: y4 :: '-' :: m1 :: m2 :: '-' :: d1 :: d2 :: sep ::
      h1 :: h2 :: ':' :: mi1 :: mi2 :: ':' :: s1 :: s2 :: rest =>
    let mo := 10 * d2n m1 + d2n m2
    let da := 10 * d2n d1 + d2n d2
    let ho := 10 * d2n h1 + d2n h2
    let mi := 10 * d2n mi1 + d2n mi2
    let se := 10 * d2n s1 + d2n s2
    let ye := 1000 * d2n y1 + 100 * d2n y2 + 10 * d2n y3 + d2n y4
    if (sep = 'T' ∨ sep = ' ') ∧
        (∀ c ∈ [y1, y2, y3, y4, m1, m2, d1, d2, h1, h2, mi1, mi2, s1, s2],
          c.isDigit = true) ∧
        (rest = [] ∨ rest = "+00:00".toList) ∧
        1 ≤ mo ∧ mo ≤ 12 ∧ 1 ≤ da ∧ da ≤ 31 ∧ ho ≤ 23 ∧ mi ≤ 59 ∧ se ≤ 59
    then some (((((ye * 13 + mo) * 32 + da) * 24 + ho) * 60 + mi) * 60 + se)
    else none
  | _ => none

/-- One successfully parsed log line: operation name, timestamp key,
duration in microseconds. -/
structure ParsedLine where
  op : Str
  ts : ℕ
  dur : ℚ

/-- The per-line stage of the reading loop of `analyze_log_file`:
strip and split on `" - "` (exactly two parts or skip), parse the
timestamp (ValueError is caught: skip), split on `" in "` (exactly two
parts or skip), then `parse_duration` (a `None` result: skip; an uncaught
exception aborts the whole loop). -/
def processLine (line : Str) : Except String (Option ParsedLine) :=
  match splitOnSub " - ".toList (trim line) with
  | [timestamp_str, rest] =>
    match parse_timestamp
        (replaceAll "Z".toList "+00:00".toList timestamp_str) with
    | none => Except.ok none
    | some ts =>
      match splitOnSub " in ".toList rest with
      | [operation, duration_str] =>
        match parse_duration duration_str with
        | Except.error e => Except.error e
        | Except.ok none => Except.ok none
        | Except.ok (some d) => Except.ok (some ⟨operation, ts, d⟩)
      | _ => Except.ok none
  | _ => Except.ok none

/-- The two parallel `defaultdict(list)` accumulators (`durations` and
`timestamps`), keyed by operation in first-insertion order; since both
are always appended to together, they are carried as one association
list from operation to its (timestamp, duration) pairs in file order. -/
def insertDur :
    List (Str × List (ℕ × ℚ)) → Str → ℕ × ℚ → List (Str × List (ℕ × ℚ))
  | [], op, p => [(op, [p])]
  | (o, ps) :: restAcc, op, p =>
    if o = op then (o, ps ++ [p]) :: restAcc
    else (o, ps) :: insertDur restAcc op p

/-- The reading loop over the file's lines; an uncaught exception from a
line ends the loop with that exception (caught by the enclosing
`except Exception` of `analyze_log_file`). -/
def collectLines :
    List Str → List (Str × List (ℕ × ℚ)) →
      Except String (List (Str × List (ℕ × ℚ)))
  | [], acc => Except.ok acc
  | l :: ls, acc =>
    match processLine l with
    | Except.error e => Except.error e
    | Except.ok none => collectLines ls acc
    | Except.ok (some pl) => collectLines ls (insertDur acc pl.op (pl.ts, pl.dur))

/-- Python tuple comparison on the `(timestamp, value)` pairs sorted by
`sorted(zip(timestamps[operation], values))`. -/
def pairLe (a b : ℕ × ℚ) : Prop :=
  a.1 < b.1 ∨ (a.1 = b.1 ∧ a.2 ≤ b.2)

instance : DecidableRel pairLe := fun a b => by
  unfold pairLe
  infer_instance

/-- Ascending sort of a list of rationals (`numpy` sorts values
internally for the percentile computation). -/
def sortQ (xs : List ℚ) : List ℚ := List.insertionSort (· ≤ ·) xs

/-- `np.mean(sorted_values) if sorted_values else 0`. -/
def npMean (xs : List ℚ) : ℚ :=
  if xs = [] then 0 else xs.sum / xs.length

/-- The population variance underlying
`np.std(sorted_values) if sorted_values else 0`: the printed standard
deviation is its square root.  The variance is carried instead of the
irrational root because no control flow or ordering in the program ever
depends on the standard deviation (the report sort never compares it:
operation names are distinct dictionary keys). -/
def npVar (xs : List ℚ) : ℚ :=
  if xs = [] then 0
  else (xs.map (fun x => (x - npMean xs) ^ 2)).sum / xs.length

/-- `np.percentile(sorted_values, q) if sorted_values else 0`: numpy's
default linear interpolation at rank `(q/100) * (n-1)`. -/
def npPercentile (xs : List ℚ) (q : ℚ) : ℚ :=
  if xs = [] then 0
  else
    let s := sortQ xs
    let n := s.length
    let rank := q / 100 * ((n : ℚ) - 1)
    let lo := (⌊rank⌋).toNat
    let hi := min (lo + 1) (n - 1)
    s.getD lo 0 + (rank - ⌊rank⌋) * (s.getD hi 0 - s.getD lo 0)

/-- One row of the printed report, in the order of the tuple
`(operation, avg, std_dev, p90, count, ...)` built by `analyze_log_file`
(the trailing timestamp and value lists of the Python tuple are not
printed and never reached by the sort comparison, see `entryLeB`). -/
structure Entry where
  op : Str
  avg : ℚ
  variance : ℚ
  p90 : ℚ
  count : ℕ
deriving DecidableEq

/-- Statistics of one operation: values paired with their timestamps are
sorted by `sorted(zip(timestamps[operation], values))` (tuple order:
timestamp, then value), then aggregated. -/
def statsOf (op : Str) (pairs : List (ℕ × ℚ)) : Entry :=
  let sortedValues := (List.insertionSort pairLe pairs).map Prod.snd
  ⟨op, npMean sortedValues, npVar sortedValues,
    npPercentile sortedValues 90, sortedValues.length⟩

/-- Python `<` on strings: lexicographic by code point. -/
def strLtB : Str → Str → Bool
  | [], [] => false
  | [], _ :: _ => true
  | _ :: _, [] => false
  | a :: as, b :: bs => if a = b then strLtB as bs else decide (a < b)

/-- The comparison applied by `averages.sort(key=lambda x: x, ...)`:
Python compares the tuples lexicographically, so first the operation
name, then (only on equal names — impossible for distinct dictionary
keys) the average duration; later components are never reached. -/
def entryLeB (x y : Entry) : Bool :=
  strLtB x.op y.op || (x.op == y.op && decide (x.avg ≤ y.avg))

/-- The relation `list.sort(key=lambda x: x, reverse=True)` orders by:
descending tuple order, stably. -/
def entryRevLe (x y : Entry) : Prop := entryLeB y x = true

instance : DecidableRel entryRevLe := fun _ _ => instDecidableEqBool _ _

/-- `averages.sort(key=lambda x: x, reverse=True)`. -/
def pySortReverse (l : List Entry) : List Entry :=
  List.insertionSort entryRevLe l

/-- Outcome of one run of `analyze_log_file`: the `except` clauses both
log and `return` without printing the report. -/
inductive RunResult where
  | fileNotFound
  | abortedException
  | report (entries : List Entry)
deriving DecidableEq

/-- Embeds `analyze_log_file(file_path)`: `none` for a path whose `open`
raises FileNotFoundError, otherwise the file's lines (without their
trailing newline, which `strip` would remove anyway).  The optional
chart rendering is a pure side effect on the unsorted list and computes
no statistics, so it is not modelled (spec sections 1 and 4.6). -/
def analyze_log_file (file : Option (List Str)) : RunResult :=
  match file with
  | none => RunResult.fileNotFound
  | some lines =>
    match collectLines lines [] with
    | Except.error _ => RunResult.abortedException
    | Except.ok acc =>
      RunResult.report (pySortReverse (acc.map (fun e => statsOf e.1 e.2)))

/-- Exit status of the `__main__` block: it calls `analyze_log_file`
(whose error handlers log and return normally) and falls off the end of
the script, so the interpreter exits with status 0 on every outcome. -/
def main_exit_code (file : Option (List Str)) : ℕ :=
  match analyze_log_file file with
  | RunResult.fileNotFound => 0
  | RunResult.abortedException => 0
  | RunResult.report _ => 0

/-- Worker for `natDigitChars`, fuel-structural (a fuel of `n` is ample:
the quotient-by-10 chain from `n` is shorter than `n`). -/
def natDigitCharsF : ℕ → ℕ → Str
  | 0, n => [Nat.digitChar n]
  | fuel + 1, n =>
    if n < 10 then [Nat.digitChar n]
    else natDigitCharsF fuel (n / 10) ++ [Nat.digitChar (n % 10)]

/-- Decimal digit characters of a natural number, most significant
first. -/
def natDigitChars (n : ℕ) : Str := natDigitCharsF n n

/-- Round half to even on rationals: the rounding of Python `format`. -/
def roundHalfEven (q : ℚ) : ℤ :=
  if q - ⌊q⌋ = 1/2 then (if 2 ∣ ⌊q⌋ then ⌊q⌋ else ⌊q⌋ + 1)
  else round q

/-- The two fractional digits of `m < 100`. -/
def twoFracDigits (m : ℕ) : Str :=
  [Nat.digitChar (m / 10), Nat.digitChar (m % 10)]

/-- Python `"\x7b:.2f\x7d".format(q)`: the value rounded to two decimal
places, rendered with exactly two digits after the point. -/
def fmt2 (q : ℚ) : Str :=
  let n := roundHalfEven (q * 100)
  if n < 0 then
    '-' :: (natDigitChars (n.natAbs / 100) ++
      '.' :: twoFracDigits (n.natAbs % 100))
  else natDigitChars (n.toNat / 100) ++ '.' :: twoFracDigits (n.toNat % 100)

/-- Embeds `format_duration(duration_microseconds)`: milliseconds (value
divided by 1000) for inputs of at least 1000 µs, microseconds below. -/
def format_duration (duration_microseconds : ℚ) : Str :=
  if 1000 ≤ duration_microseconds then
    fmt2 (duration_microseconds / 1000) ++ " ms".toList
  else fmt2 duration_microseconds ++ " µs".toList

end FlightLog

/-! ## Supporting lemmas: the percentile estimator -/

namespace AirportDb

theorem sortAsc_sorted (rows : List ℚ) : (sortAsc rows).Sorted (· ≤ ·) :=
  List.sorted_insertionSort _ rows

theorem sortAsc_perm (rows : List ℚ) : List.Perm (sortAsc rows) rows :=
  List.perm_insertionSort _ rows

theorem sortAsc_length (rows : List ℚ) :
    (sortAsc rows).length = rows.length :=
  (sortAsc_perm rows).length_eq

theorem castInt_of_nonneg {q : ℚ} (h : 0 ≤ q) : castInt q = ⌊q⌋ := if_pos h

theorem castInt_intCast (z : ℤ) : castInt ((z : ℚ)) = z := by
  unfold castInt
  split_ifs with h
  · exact_mod_cast Int.floor_intCast z
  · exact_mod_cast Int.ceil_intCast z

theorem castInt_mono {a b : ℚ} (h : a ≤ b) : castInt a ≤ castInt b := by
  unfold castInt
  split_ifs with ha hb hb
  · exact Int.floor_le_floor h
  · exact absurd (ha.trans h) hb
  · have h1 : ⌈a⌉ ≤ 0 := Int.ceil_le.mpr (by exact_mod_cast le_of_not_le ha)
    have h2 : (0 : ℤ) ≤ ⌊b⌋ := Int.floor_nonneg.mpr hb
    omega
  · exact Int.ceil_le_ceil h

theorem offset_lt_length (rows : List ℚ) (p : ℚ) (hne : rows ≠ [])
    (h0 : 0 ≤ p) (h1 : p < 1) :
    (castInt ((rows.length : ℚ) * p)).toNat < rows.length := by
  have hn : 0 < rows.length := List.length_pos.mpr hne
  have hq : (0 : ℚ) ≤ (rows.length : ℚ) * p :=
    mul_nonneg (by positivity) h0
  rw [castInt_of_nonneg hq]
  have hlt : (rows.length : ℚ) * p < (rows.length : ℚ) := by
    calc (rows.length : ℚ) * p < (rows.length : ℚ) * 1 := by
          exact mul_lt_mul_of_pos_left h1 (by exact_mod_cast hn)
      _ = (rows.length : ℚ) := mul_one _
  have hfl : ⌊(rows.length : ℚ) * p⌋ < (rows.length : ℤ) :=
    Int.floor_lt.mpr (by exact_mod_cast hlt)
  have hge : (0 : ℤ) ≤ ⌊(rows.length : ℚ) * p⌋ := Int.floor_nonneg.mpr hq
  omega

theorem get_percentile_eq_getD (rows : List ℚ) (p : ℚ) (hne : rows ≠ [])
    (h0 : 0 ≤ p) (h1 : p < 1) :
    get_percentile rows p =
      some ((sortAsc rows).getD (castInt ((rows.length : ℚ) * p)).toNat 0) := by
  have hk : (castInt ((rows.length : ℚ) * p)).toNat < (sortAsc rows).length := by
    rw [sortAsc_length]
    exact offset_lt_length rows p hne h0 h1
  unfold get_percentile selectOffset
  rw [List.head?_drop, List.getElem?_eq_getElem hk, List.getD_eq_getElem _ 0 hk]

theorem getD_sortAsc_mem (rows : List ℚ) (k : ℕ)
    (hk : k < (sortAsc rows).length) : (sortAsc rows).getD k 0 ∈ rows := by
  rw [List.getD_eq_getElem _ 0 hk]
  exact (sortAsc_perm rows).mem_iff.mp (List.getElem_mem hk)

theorem getD_sortAsc_mono (rows : List ℚ) (i j : ℕ) (hij : i ≤ j)
    (hj : j < (sortAsc rows).length) :
    (sortAsc rows).getD i 0 ≤ (sortAsc rows).getD j 0 := by
  have hi : i < (sortAsc rows).length := lt_of_le_of_lt hij hj
  rw [List.getD_eq_getElem _ 0 hi, List.getD_eq_getElem _ 0 hj]
  exact (sortAsc_sorted rows).rel_get_of_le
    (show (⟨i, hi⟩ : Fin (sortAsc rows).length) ≤ ⟨j, hj⟩ from hij)

end AirportDb

/-! ## Claims C3, C6, C7: the percentile estimator -/

namespace AirportDb

/-- C3 counterexample: a percentile request against an empty result set
does not fail with an EmptyDataset error — `get_percentile` returns
Python `None` (there is no EmptyDataset error anywhere in the code). -/
theorem get_percentile_empty_counterexample :
    get_percentile [] (1/2) = none := by
  simp [get_percentile, selectOffset, sortAsc, List.insertionSort]

/-- C3 as amended: for every table/column/quantile request whose matching
row count is zero, `get_percentile` returns `None` to its caller; no
error is raised. -/
theorem get_percentile_empty_returns_none (rows : List ℚ)
    (pred : ℚ → Bool) (p : ℚ) (h : rows.filter pred = []) :
    get_percentile_where rows pred p = none := by
  unfold get_percentile_where get_percentile selectOffset
  rw [h]
  simp [sortAsc, List.insertionSort]

theorem get_percentile_empty_returns_none_witness :
    List.filter (fun _ => false) [(3 : ℚ)] = [] ∧
      get_percentile_where [(3 : ℚ)] (fun _ => false) (1/2) = none :=
  ⟨rfl, get_percentile_empty_returns_none [3] (fun _ => false) (1/2) rfl⟩

/-- C6: on a non-empty filtered column, for quantiles `0 ≤ p ≤ q < 1` the
estimator returns values that are actually present in the filtered
dataset, and the estimate at `p` is at most the estimate at `q`. -/
theorem percentile_member_monotone (rows : List ℚ) (pred : ℚ → Bool)
    (p q : ℚ) (hne : rows.filter pred ≠ []) (h0 : 0 ≤ p) (h1 : q < 1)
    (hpq : p ≤ q) :
    ∃ v w, get_percentile_where rows pred p = some v ∧
      get_percentile_where rows pred q = some w ∧
      v ∈ rows.filter pred ∧ w ∈ rows.filter pred ∧ v ≤ w := by
  set rs := rows.filter pred with hrs
  have hp1 : p < 1 := lt_of_le_of_lt hpq h1
  have hq0 : 0 ≤ q := le_trans h0 hpq
  have hkp := offset_lt_length rs p hne h0 hp1
  have hkq := offset_lt_length rs q hne hq0 h1
  have hmono : (castInt ((rs.length : ℚ) * p)).toNat ≤
      (castInt ((rs.length : ℚ) * q)).toNat := by
    have := castInt_mono
      (mul_le_mul_of_nonneg_left hpq (by positivity : (0:ℚ) ≤ (rs.length : ℚ)))
    omega
  refine ⟨_, _, get_percentile_eq_getD rs p hne h0 hp1,
    get_percentile_eq_getD rs q hne hq0 h1, ?_, ?_, ?_⟩
  · exact getD_sortAsc_mem rs _ (by rw [sortAsc_length]; exact hkp)
  · exact getD_sortAsc_mem rs _ (by rw [sortAsc_length]; exact hkq)
  · exact getD_sortAsc_mono rs _ _ hmono (by rw [sortAsc_length]; exact hkq)

theorem percentile_member_monotone_witness :
    List.filter (fun w => decide (0 < w)) [(0 : ℚ), 10, -3, 20, 30] ≠ [] ∧
      (0 : ℚ) ≤ 1/4 ∧ (9/10 : ℚ) < 1 ∧ (1/4 : ℚ) ≤ 9/10 ∧
      (∃ v w,
        get_percentile_where [(0 : ℚ), 10, -3, 20, 30]
          (fun w => decide (0 < w)) (1/4) = some v ∧
        get_percentile_where [(0 : ℚ), 10, -3, 20, 30]
          (fun w => decide (0 < w)) (9/10) = some w ∧
        v ∈ List.filter (fun w => decide (0 < w)) [(0 : ℚ), 10, -3, 20, 30] ∧
        w ∈ List.filter (fun w => decide (0 < w)) [(0 : ℚ), 10, -3, 20, 30] ∧
        v ≤ w) :=
  ⟨by norm_num [List.filter]; exact List.cons_ne_nil _ _, by norm_num,
    by norm_num, by norm_num,
    percentile_member_monotone [(0 : ℚ), 10, -3, 20, 30]
      (fun w => decide (0 < w)) (1/4) (9/10)
      (by norm_num [List.filter]; exact List.cons_ne_nil _ _) (by norm_num)
      (by norm_num) (by norm_num)⟩

/-- C7: on a non-empty column and a fractional position `p` in [0, 1),
`get_percentile` returns exactly the element at zero-based offset
`floor(p * row_count)` of the rows sorted ascending (nearest rank,
truncation toward zero, no interpolation), and at `p = 0` it returns the
minimum of the column. -/
theorem percentile_nearest_rank (rows : List ℚ) (p : ℚ) (hne : rows ≠ [])
    (h0 : 0 ≤ p) (h1 : p < 1) :
    (⌊p * (rows.length : ℚ)⌋).toNat < rows.length ∧
    get_percentile rows p =
      some ((sortAsc rows).getD (⌊p * (rows.length : ℚ)⌋).toNat 0) ∧
    ∃ v, get_percentile rows 0 = some v ∧ v ∈ rows ∧ ∀ x ∈ rows, v ≤ x := by
  have hcast : castInt ((rows.length : ℚ) * p) = ⌊p * (rows.length : ℚ)⌋ := by
    rw [mul_comm, castInt_of_nonneg]
    exact mul_nonneg h0 (by positivity)
  refine ⟨?_, ?_, ?_⟩
  · have := offset_lt_length rows p hne h0 h1
    rwa [hcast] at this
  · rw [get_percentile_eq_getD rows p hne h0 h1, hcast]
  · have h00 : castInt ((rows.length : ℚ) * 0) = 0 := by
      rw [mul_zero]
      simp [castInt]
    refine ⟨(sortAsc rows).getD 0 0,
      ?_, getD_sortAsc_mem rows 0 ?_, fun x hx => ?_⟩
    · rw [get_percentile_eq_getD rows 0 hne le_rfl one_pos, h00]
      rfl
    · rw [sortAsc_length]
      exact List.length_pos.mpr hne
    · obtain ⟨j, hj, rfl⟩ :=
        List.mem_iff_getElem.mp ((sortAsc_perm rows).mem_iff.mpr hx)
      rw [← List.getD_eq_getElem _ 0 hj]
      exact getD_sortAsc_mono rows 0 j (Nat.zero_le j) hj

theorem percentile_nearest_rank_witness :
    ([(0 : ℚ), 100, 500, 2000] ≠ ([] : List ℚ)) ∧ (0 : ℚ) ≤ 1/2 ∧
      (1/2 : ℚ) < 1 ∧
      get_percentile [(0 : ℚ), 100, 500, 2000] (1/2) = some 500 ∧
      ((⌊(1/2 : ℚ) * (([(0 : ℚ), 100, 500, 2000].length : ℕ) : ℚ)⌋).toNat <
          [(0 : ℚ), 100, 500, 2000].length ∧
        get_percentile [(0 : ℚ), 100, 500, 2000] (1/2) =
          some ((sortAsc [(0 : ℚ), 100, 500, 2000]).getD
            (⌊(1/2 : ℚ) * (([(0 : ℚ), 100, 500, 2000].length : ℕ) : ℚ)⌋).toNat
            0) ∧
        ∃ v, get_percentile [(0 : ℚ), 100, 500, 2000] 0 = some v ∧
          v ∈ [(0 : ℚ), 100, 500, 2000] ∧
          ∀ x ∈ [(0 : ℚ), 100, 500, 2000], v ≤ x) :=
  ⟨by simp, by norm_num, by norm_num,
    by
      norm_num [get_percentile, selectOffset, sortAsc, castInt,
        List.insertionSort, List.orderedInsert]
      rfl,
    percentile_nearest_rank [(0 : ℚ), 100, 500, 2000] (1/2)
      (by simp) (by norm_num) (by norm_num)⟩

end AirportDb

/-! ## Claims C4, C5: emitted sampling rules and identifier handling -/

namespace AirportDb

/-- C4 counterexample: the runway-width rule compiled from a dataset of
eleven positive widths with maximum 110.  Its final band's upper bound is
the observed 90th percentile (100), which is an observed value and not
strictly beyond the maximum observed value 110. -/
theorem width_rule_final_bound_counterexample :
    width_rule_of_data [10, 20, 30, 40, 50, 60, 70, 80, 90, 100, 110] =
      some [(9, 30), (30, 60), (60, 90), (90, 100)] ∧
    (110 : ℚ) ∈ [(10 : ℚ), 20, 30, 40, 50, 60, 70, 80, 90, 100, 110] ∧
    ¬ ((110 : ℤ) < 100) := by
  refine ⟨?_, by simp, by norm_num⟩
  norm_num [width_rule_of_data, get_percentile_where, get_percentile,
    selectOffset, sortAsc, castInt, width_rule, List.insertionSort,
    List.orderedInsert, List.filter, Option.bind]
  repeat' apply And.intro
  all_goals rfl

/-- C4 as amended: for non-decreasing percentile inputs within the
configured floor and ceiling, all three emitted piecewise rules have
contiguous, non-overlapping bands whose selection probabilities sum to
exactly 1; the elevation and runway-length rules end in the explicit
configured ceilings 14422 and 21119 (independent of the data), while the
runway-width rule's final upper bound is the observed 90th-percentile
value, with no headroom ceiling. -/
theorem piecewise_rules_invariants
    (e25 e50 e75 e90 e95 l25 l50 l75 l90 w25 w50 w75 w90 : ℚ)
    (he0 : -210 ≤ e25) (he1 : e25 ≤ e50) (he2 : e50 ≤ e75) (he3 : e75 ≤ e90)
    (he4 : e90 ≤ e95) (he5 : e95 ≤ 14422)
    (hl0 : 80 ≤ l25) (hl1 : l25 ≤ l50) (hl2 : l50 ≤ l75) (hl3 : l75 ≤ l90)
    (hl4 : l90 ≤ 21119)
    (hw0 : 9 ≤ w25) (hw1 : w25 ≤ w50) (hw2 : w50 ≤ w75) (hw3 : w75 ≤ w90) :
    (contiguous (elevation_rule e25 e50 e75 e90 e95) ∧
      (∀ b ∈ elevation_rule e25 e50 e75 e90 e95, b.1 ≤ b.2) ∧
      (bandProbs elevation_thresholds).sum = 1 ∧
      (bandProbs elevation_thresholds).length =
        (elevation_rule e25 e50 e75 e90 e95).length ∧
      (elevation_rule e25 e50 e75 e90 e95).getLast?.map Prod.snd =
        some 14422) ∧
    (contiguous (length_rule l25 l50 l75 l90) ∧
      (∀ b ∈ length_rule l25 l50 l75 l90, b.1 ≤ b.2) ∧
      (bandProbs length_thresholds).sum = 1 ∧
      (bandProbs length_thresholds).length =
        (length_rule l25 l50 l75 l90).length ∧
      (length_rule l25 l50 l75 l90).getLast?.map Prod.snd = some 21119) ∧
    (contiguous (width_rule w25 w50 w75 w90) ∧
      (∀ b ∈ width_rule w25 w50 w75 w90, b.1 ≤ b.2) ∧
      (bandProbs width_thresholds).sum = 1 ∧
      (bandProbs width_thresholds).length =
        (width_rule w25 w50 w75 w90).length ∧
      (width_rule w25 w50 w75 w90).getLast?.map Prod.snd =
        some (castInt w90)) := by
  have hfloorE : (-210 : ℤ) ≤ castInt e25 := by
    have h := castInt_mono he0
    rwa [show castInt (-210 : ℚ) = -210 by exact_mod_cast castInt_intCast (-210)] at h
  have hceilE : castInt e95 ≤ 14422 := by
    have h := castInt_mono he5
    rwa [show castInt (14422 : ℚ) = 14422 by exact_mod_cast castInt_intCast 14422] at h
  have hfloorL : (80 : ℤ) ≤ castInt l25 := by
    have h := castInt_mono hl0
    rwa [show castInt (80 : ℚ) = 80 by exact_mod_cast castInt_intCast 80] at h
  have hceilL : castInt l90 ≤ 21119 := by
    have h := castInt_mono hl4
    rwa [show castInt (21119 : ℚ) = 21119 by exact_mod_cast castInt_intCast 21119] at h
  have hfloorW : (9 : ℤ) ≤ castInt w25 := by
    have h := castInt_mono hw0
    rwa [show castInt (9 : ℚ) = 9 by exact_mod_cast castInt_intCast 9] at h
  refine ⟨⟨?_, ?_, ?_, rfl, rfl⟩, ⟨?_, ?_, ?_, rfl, rfl⟩,
    ⟨?_, ?_, ?_, rfl, rfl⟩⟩
  · simp [contiguous, elevation_rule]
  · intro b hb
    simp only [elevation_rule, List.mem_cons, List.not_mem_nil,
      or_false] at hb
    rcases hb with rfl | rfl | rfl | rfl | rfl | rfl
    · exact hfloorE
    · exact castInt_mono he1
    · exact castInt_mono he2
    · exact castInt_mono he3
    · exact castInt_mono he4
    · exact hceilE
  · norm_num [bandProbs, elevation_thresholds]
  · simp [contiguous, length_rule]
  · intro b hb
    simp only [length_rule, List.mem_cons, List.not_mem_nil, or_false] at hb
    rcases hb with rfl | rfl | rfl | rfl | rfl
    · exact hfloorL
    · exact castInt_mono hl1
    · exact castInt_mono hl2
    · exact castInt_mono hl3
    · exact hceilL
  · norm_num [bandProbs, length_thresholds]
  · simp [contiguous, width_rule]
  · intro b hb
    simp only [width_rule, List.mem_cons, List.not_mem_nil, or_false] at hb
    rcases hb with rfl | rfl | rfl | rfl
    · exact hfloorW
    · exact castInt_mono hw1
    · exact castInt_mono hw2
    · exact castInt_mono hw3
  · norm_num [bandProbs, width_thresholds]

theorem piecewise_rules_invariants_witness :
    ((-210 : ℚ) ≤ 10 ∧ (10 : ℚ) ≤ 100 ∧ (100 : ℚ) ≤ 1000 ∧
      (1000 : ℚ) ≤ 5000 ∧ (5000 : ℚ) ≤ 9000 ∧ (9000 : ℚ) ≤ 14422 ∧
      (80 : ℚ) ≤ 100 ∧ (100 : ℚ) ≤ 2000 ∧ (2000 : ℚ) ≤ 5000 ∧
      (5000 : ℚ) ≤ 9000 ∧ (9000 : ℚ) ≤ 21119 ∧
      (9 : ℚ) ≤ 20 ∧ (20 : ℚ) ≤ 50 ∧ (50 : ℚ) ≤ 100 ∧ (100 : ℚ) ≤ 150) ∧
    ((contiguous (elevation_rule 10 100 1000 5000 9000) ∧
      (∀ b ∈ elevation_rule 10 100 1000 5000 9000, b.1 ≤ b.2) ∧
      (bandProbs elevation_thresholds).sum = 1 ∧
      (bandProbs elevation_thresholds).length =
        (elevation_rule 10 100 1000 5000 9000).length ∧
      (elevation_rule 10 100 1000 5000 9000).getLast?.map Prod.snd =
        some 14422) ∧
    (contiguous (length_rule 100 2000 5000 9000) ∧
      (∀ b ∈ length_rule 100 2000 5000 9000, b.1 ≤ b.2) ∧
      (bandProbs length_thresholds).sum = 1 ∧
      (bandProbs length_thresholds).length =
        (length_rule 100 2000 5000 9000).length ∧
      (length_rule 100 2000 5000 9000).getLast?.map Prod.snd = some 21119) ∧
    (contiguous (width_rule 20 50 100 150) ∧
      (∀ b ∈ width_rule 20 50 100 150, b.1 ≤ b.2) ∧
      (bandProbs width_thresholds).sum = 1 ∧
      (bandProbs width_thresholds).length =
        (width_rule 20 50 100 150).length ∧
      (width_rule 20 50 100 150).getLast?.map Prod.snd =
        some (castInt 150))) :=
  ⟨by norm_num,
    piecewise_rules_invariants 10 100 1000 5000 9000 100 2000 5000 9000
      20 50 100 150
      (by norm_num) (by norm_num) (by norm_num) (by norm_num) (by norm_num)
      (by norm_num) (by norm_num) (by norm_num) (by norm_num) (by norm_num)
      (by norm_num) (by norm_num) (by norm_num) (by norm_num) (by norm_num)⟩

/-- C5 counterexample: `get_percentile` builds query text directly from
an identifier that is not on the spec's allow-list ("bogus") and raises
no Configuration error, where the spec-modelled construction fails. -/
theorem no_allowlist_validation_counterexample :
    get_percentile_build "bogus" "Elevation" =
      Except.ok (get_percentile_query "bogus" "Elevation") ∧
    specAllowedTables.contains "bogus" = false ∧
    spec_get_percentile_build "bogus" "Elevation" =
      Except.error "Configuration" := by
  refine ⟨rfl, by decide, ?_⟩
  simp [spec_get_percentile_build, specAllowedTables]

/-- C5 as amended: the dataset access layer performs no identifier
validation — the query text is always built by direct interpolation and
no Configuration error is raised; however, every (table, column) pair the
program actually interpolates is drawn from the fixed schema names. -/
theorem interpolated_identifiers_known :
    (interpolatedTableColumns.all fun tc =>
      specAllowedTables.contains tc.1 && specAllowedColumns.contains tc.2) =
        true ∧
    ∀ table column, get_percentile_build table column =
      Except.ok (get_percentile_query table column) :=
  ⟨by decide, fun _ _ => rfl⟩

end AirportDb

/-! ## Supporting lemmas: the duration parser and formatter -/

namespace FlightLog

theorem space_not_numChar {c : Char} (h : isPySpace c = true) :
    isNumChar c = false := by
  simp only [isPySpace, Char.isWhitespace, Bool.or_eq_true,
    decide_eq_true_eq] at h
  rcases h with ((h | h) | h) | h <;> subst h <;> decide

theorem numChar_not_space {c : Char} (h : isNumChar c = true) :
    isPySpace c = false := by
  cases hps : isPySpace c with
  | false => rfl
  | true => rw [space_not_numChar hps] at h; cases h

theorem opt_prop_of_eq {P : Char → Prop} {o : Option Char} {a : Char}
    (ho : o = some a) (ha : P a) : ∀ c, o = some c → P c := by
  intro c h
  rw [ho] at h
  injection h with h
  exact h ▸ ha

theorem mem_of_isPrefixOf {x : Char} :
    ∀ {pat s : Str}, x ∈ pat → pat.isPrefixOf s = true → x ∈ s := by
  intro pat
  induction pat with
  | nil => intro s hx _; cases hx
  | cons p ps ih =>
    intro s hx h
    cases s with
    | nil => cases h
    | cons a t =>
      simp only [List.isPrefixOf, Bool.and_eq_true, beq_iff_eq] at h
      rcases List.mem_cons.mp hx with rfl | hx
      · rw [h.1]
        exact List.mem_cons_self a t
      · exact List.mem_cons_of_mem a (ih hx h.2)

theorem replaceAllF_eq_self (pat rep : Str) (x : Char) (hx : x ∈ pat) :
    ∀ (fuel : ℕ) (s : Str), x ∉ s → replaceAllF pat rep fuel s = s := by
  intro fuel
  induction fuel with
  | zero => intro s _; cases s <;> rfl
  | succ n ih =>
    intro s hs
    cases s with
    | nil => rfl
    | cons c rest =>
      simp only [replaceAllF]
      rw [if_neg, ih rest (fun h => hs (List.mem_cons_of_mem c h))]
      rintro ⟨-, hpre⟩
      exact hs (mem_of_isPrefixOf hx hpre)

theorem replaceAll_eq_self (pat rep : Str) (x : Char) (hx : x ∈ pat)
    (s : Str) (hs : x ∉ s) : replaceAll pat rep s = s :=
  replaceAllF_eq_self pat rep x hx s.length s hs

theorem trim_eq_self (s : Str)
    (h1 : ∀ c, s.head? = some c → isPySpace c = false)
    (h2 : ∀ c, s.getLast? = some c → isPySpace c = false) :
    trim s = s := by
  cases s with
  | nil => rfl
  | cons a t =>
    have ha : isPySpace a = false := h1 a rfl
    unfold trim
    rw [List.dropWhile_cons, if_neg (by simp [ha])]
    rcases e : (a :: t).reverse with _ | ⟨b, u⟩
    · exact absurd e (by simp)
    · have hb : isPySpace b = false := by
        apply h2
        rw [← List.head?_reverse, e]
        rfl
      rw [List.dropWhile_cons, if_neg (by simp [hb]), ← e,
        List.reverse_reverse]

theorem takeWhile_append_all (p : Char → Bool) (xs ys : Str)
    (hxs : ∀ c ∈ xs, p c = true)
    (hys : ∀ c, ys.head? = some c → p c = false) :
    (xs ++ ys).takeWhile p = xs ∧ (xs ++ ys).dropWhile p = ys := by
  induction xs with
  | nil =>
    simp only [List.nil_append]
    cases ys with
    | nil => exact ⟨rfl, rfl⟩
    | cons b u =>
      have hb : p b = false := hys b rfl
      rw [List.takeWhile_cons, List.dropWhile_cons]
      simp [hb]
  | cons a as ih =>
    have ha : p a = true := hxs a (List.mem_cons_self a as)
    obtain ⟨ih1, ih2⟩ := ih (fun c hc => hxs c (List.mem_cons_of_mem a hc))
    rw [List.cons_append, List.takeWhile_cons, List.dropWhile_cons]
    simp only [ha, if_true]
    exact ⟨by rw [ih1], ih2⟩

/-- The common evaluation of `parse_duration` on a well-formed numeric
text followed by a suffix that the regex treats as whitespace plus an
optional unit. -/
theorem parse_duration_split (num suffix : Str)
    (hne : num ≠ [])
    (hnum : ∀ c ∈ num, isNumChar c = true)
    (hdots : countDots num ≤ 1)
    (hdig : hasDigit num = true)
    (hsA : 'a' ∉ suffix) (hsB : 'Â' ∉ suffix)
    (hshead : ∀ c, suffix.head? = some c → isNumChar c = false)
    (hslast : ∀ c, suffix.getLast? = some c → isPySpace c = false) :
    parse_duration (num ++ suffix) =
      Except.ok (applyUnit
        ((matchUnit (suffix.dropWhile isPySpace)).getD "µs".toList)
        (decValue num)) := by
  have hnumA : 'a' ∉ num := fun h => absurd (hnum 'a' h) (by decide)
  have hnumB : 'Â' ∉ num := fun h => absurd (hnum 'Â' h) (by decide)
  have hmemA : 'a' ∉ num ++ suffix := by
    simp only [List.mem_append]
    rintro (h | h)
    · exact hnumA h
    · exact hsA h
  have hmemB : 'Â' ∉ num ++ suffix := by
    simp only [List.mem_append]
    rintro (h | h)
    · exact hnumB h
    · exact hsB h
  have hrep1 : replaceAll "main() is: ".toList [] (num ++ suffix) =
      num ++ suffix :=
    replaceAll_eq_self _ _ 'a' (by decide) _ hmemA
  have hrep2 : replaceAll "Âµs".toList "µs".toList (num ++ suffix) =
      num ++ suffix :=
    replaceAll_eq_self _ _ 'Â' (by decide) _ hmemB
  have htrim : trim (num ++ suffix) = num ++ suffix := by
    apply trim_eq_self
    · intro c hc
      obtain ⟨n0, ntl, rfl⟩ := List.exists_cons_of_ne_nil hne
      rw [List.cons_append] at hc
      injection hc with hc
      subst hc
      exact numChar_not_space (hnum _ (List.mem_cons_self _ _))
    · intro c hc
      by_cases hsuf : suffix = []
      · subst hsuf
        rw [List.append_nil] at hc
        obtain ⟨hh, rfl⟩ :=
          List.mem_getLast?_eq_getLast (show c ∈ num.getLast? from hc)
        exact numChar_not_space (hnum _ (List.getLast_mem hh))
      · rw [List.getLast?_append_of_ne_nil _ hsuf] at hc
        exact hslast c hc
  obtain ⟨hsplit1, hsplit2⟩ :=
    takeWhile_append_all isNumChar num suffix hnum hshead
  have hfv : pyFloatValid num = true := by
    unfold pyFloatValid
    rw [hdig, decide_eq_true hdots]
    rfl
  simp only [parse_duration, hrep1, htrim, hrep2, hsplit1, hsplit2]
  rw [if_neg hne, if_pos hfv]

end FlightLog

/-! ## Claim C8: duration unit conversions -/

namespace FlightLog

/-- C8: for every well-formed numeric text (digits with at most one dot)
of value `v`, parsing with each supported unit suffix normalizes to
microseconds with the exact conversion factors of `parse_duration`:
`ns` divides by 1000, `µs`/`us` is the identity, `ms` multiplies by
1000, `s` by 1,000,000, `m` by 60,000,000, and a bare number is taken as
microseconds. -/
theorem parse_duration_unit_conversions (num : Str) (v : ℚ)
    (hne : num ≠ []) (hnum : ∀ c ∈ num, isNumChar c = true)
    (hdots : countDots num ≤ 1) (hdig : hasDigit num = true)
    (hval : decValue num = v) :
    parse_duration (num ++ " ns".toList) = Except.ok (some (v / 1000)) ∧
    parse_duration (num ++ " µs".toList) = Except.ok (some v) ∧
    parse_duration (num ++ " us".toList) = Except.ok (some v) ∧
    parse_duration (num ++ " ms".toList) = Except.ok (some (v * 1000)) ∧
    parse_duration (num ++ " s".toList) = Except.ok (some (v * 1000000)) ∧
    parse_duration (num ++ " m".toList) =
      Except.ok (some (v * 60 * 1000000)) ∧
    parse_duration num = Except.ok (some v) := by
  subst hval
  refine ⟨?_, ?_, ?_, ?_, ?_, ?_, ?_⟩
  · rw [parse_duration_split num " ns".toList hne hnum hdots hdig
      (by decide) (by decide) (opt_prop_of_eq rfl (by decide))
      (opt_prop_of_eq rfl (by decide))]
    rfl
  · rw [parse_duration_split num " µs".toList hne hnum hdots hdig
      (by decide) (by decide) (opt_prop_of_eq rfl (by decide))
      (opt_prop_of_eq rfl (by decide))]
    rfl
  · rw [parse_duration_split num " us".toList hne hnum hdots hdig
      (by decide) (by decide) (opt_prop_of_eq rfl (by decide))
      (opt_prop_of_eq rfl (by decide))]
    rfl
  · rw [parse_duration_split num " ms".toList hne hnum hdots hdig
      (by decide) (by decide) (opt_prop_of_eq rfl (by decide))
      (opt_prop_of_eq rfl (by decide))]
    rfl
  · rw [parse_duration_split num " s".toList hne hnum hdots hdig
      (by decide) (by decide) (opt_prop_of_eq rfl (by decide))
      (opt_prop_of_eq rfl (by decide))]
    rfl
  · rw [parse_duration_split num " m".toList hne hnum hdots hdig
      (by decide) (by decide) (opt_prop_of_eq rfl (by decide))
      (opt_prop_of_eq rfl (by decide))]
    rfl
  · have h := parse_duration_split num [] hne hnum hdots hdig
      (List.not_mem_nil _) (List.not_mem_nil _)
      (fun c hc => Option.noConfusion
        (show (none : Option Char) = some c from hc))
      (fun c hc => Option.noConfusion
        (show (none : Option Char) = some c from hc))
    rw [List.append_nil] at h
    exact h

theorem parse_duration_unit_conversions_witness :
    ("1500".toList ≠ ([] : Str)) ∧
      (∀ c ∈ "1500".toList, isNumChar c = true) ∧
      countDots "1500".toList ≤ 1 ∧ hasDigit "1500".toList = true ∧
      parse_duration "1500 ms".toList = Except.ok (some 1500000) ∧
      parse_duration "2 m".toList = Except.ok (some 120000000) ∧
      parse_duration "500".toList = Except.ok (some 500) := by
  have h1500 := parse_duration_unit_conversions "1500".toList 1500
    (by decide) (by decide) (by decide) (by decide)
    (by norm_num : ((1500 : ℕ) : ℚ) + ((0 : ℕ) : ℚ) / (10 : ℚ) ^ (0 : ℕ) =
      (1500 : ℚ))
  have h2 := parse_duration_unit_conversions "2".toList 2
    (by decide) (by decide) (by decide) (by decide)
    (by norm_num : ((2 : ℕ) : ℚ) + ((0 : ℕ) : ℚ) / (10 : ℚ) ^ (0 : ℕ) =
      (2 : ℚ))
  have h500 := parse_duration_unit_conversions "500".toList 500
    (by decide) (by decide) (by decide) (by decide)
    (by norm_num : ((500 : ℕ) : ℚ) + ((0 : ℕ) : ℚ) / (10 : ℚ) ^ (0 : ℕ) =
      (500 : ℚ))
  refine ⟨by decide, by decide, by decide, by decide, ?_, ?_, h500.2.2.2.2.2.2⟩
  · have h := h1500.2.2.2.1
    rwa [show (1500 : ℚ) * 1000 = 1500000 from by norm_num] at h
  · have h := h2.2.2.2.2.2.1
    rwa [show (2 : ℚ) * 60 * 1000000 = 120000000 from by norm_num] at h

end FlightLog

/-! ## Claim C10: duration formatting -/

namespace FlightLog

theorem digitChar_isDigit {m : ℕ} (h : m < 10) :
    (Nat.digitChar m).isDigit = true := by
  interval_cases m <;> decide

theorem natDigitCharsF_spec :
    ∀ (fuel n : ℕ), n < 10 ^ (fuel + 1) →
      natDigitCharsF fuel n ≠ [] ∧
        ∀ c ∈ natDigitCharsF fuel n, c.isDigit = true := by
  intro fuel
  induction fuel with
  | zero =>
    intro n hn
    simp only [natDigitCharsF]
    refine ⟨by simp, ?_⟩
    intro c hc
    simp only [List.mem_singleton] at hc
    subst hc
    exact digitChar_isDigit (by simpa using hn)
  | succ f ih =>
    intro n hn
    simp only [natDigitCharsF]
    split_ifs with h10
    · refine ⟨by simp, ?_⟩
      intro c hc
      simp only [List.mem_singleton] at hc
      subst hc
      exact digitChar_isDigit h10
    · have hdiv : n / 10 < 10 ^ (f + 1) := by
        rw [Nat.div_lt_iff_lt_mul (by norm_num)]
        calc n < 10 ^ (f + 1 + 1) := hn
          _ = 10 ^ (f + 1) * 10 := by ring
      obtain ⟨hne, hall⟩ := ih (n / 10) hdiv
      refine ⟨by simp, ?_⟩
      intro c hc
      rw [List.mem_append] at hc
      rcases hc with hc | hc
      · exact hall c hc
      · simp only [List.mem_singleton] at hc
        subst hc
        exact digitChar_isDigit (Nat.mod_lt _ (by norm_num))

theorem natDigitChars_spec (n : ℕ) :
    natDigitChars n ≠ [] ∧ ∀ c ∈ natDigitChars n, c.isDigit = true := by
  apply natDigitCharsF_spec
  have h1 : n < 2 ^ n := Nat.lt_two_pow n
  have h2 : 2 ^ n ≤ 10 ^ n := Nat.pow_le_pow_left (by norm_num) n
  have h3 : 10 ^ n ≤ 10 ^ (n + 1) :=
    Nat.pow_le_pow_right (by norm_num) (Nat.le_succ n)
  omega

theorem roundHalfEven_nonneg {q : ℚ} (h : 0 ≤ q) : 0 ≤ roundHalfEven q := by
  unfold roundHalfEven
  have hfl : (0 : ℤ) ≤ ⌊q⌋ := Int.floor_nonneg.mpr h
  split_ifs with h1 h2
  · exact hfl
  · omega
  · rw [round_eq]
    have h3 : (0 : ℚ) ≤ q + 1/2 := by linarith
    have := Int.floor_nonneg.mpr h3
    omega

theorem fmt2_shape (q : ℚ) (hq : 0 ≤ q) :
    ∃ ip f1 f2, fmt2 q = ip ++ '.' :: [f1, f2] ∧ ip ≠ [] ∧
      (∀ c ∈ ip, c.isDigit = true) ∧ f1.isDigit = true ∧
      f2.isDigit = true := by
  have hn : 0 ≤ roundHalfEven (q * 100) := roundHalfEven_nonneg (by positivity)
  obtain ⟨hne, hall⟩ :=
    natDigitChars_spec ((roundHalfEven (q * 100)).toNat / 100)
  refine ⟨natDigitChars ((roundHalfEven (q * 100)).toNat / 100),
    Nat.digitChar ((roundHalfEven (q * 100)).toNat % 100 / 10),
    Nat.digitChar ((roundHalfEven (q * 100)).toNat % 100 % 10),
    ?_, hne, hall, digitChar_isDigit (by omega),
    digitChar_isDigit (Nat.mod_lt _ (by norm_num))⟩
  simp only [fmt2, twoFracDigits]
  rw [if_neg (by omega)]

/-- C10: for every non-negative duration `d` in microseconds the
formatter renders `d / 1000` followed by `" ms"` exactly when
`d ≥ 1000 µs` and `d` itself followed by `" µs"` when `d < 1000 µs` (the
unit switch is exactly at 1000), and in both branches the rendered number
has a non-empty all-digit integer part and exactly two digits after the
decimal point. -/
theorem format_duration_two_decimals (d : ℚ) (hd : 0 ≤ d) :
    ∃ ip f1 f2, ip ≠ [] ∧ (∀ c ∈ ip, c.isDigit = true) ∧
      f1.isDigit = true ∧ f2.isDigit = true ∧
      ((1000 ≤ d ∧
          format_duration d = ip ++ '.' :: f1 :: f2 :: " ms".toList ∧
          fmt2 (d / 1000) = ip ++ '.' :: [f1, f2]) ∨
        (d < 1000 ∧
          format_duration d = ip ++ '.' :: f1 :: f2 :: " µs".toList ∧
          fmt2 d = ip ++ '.' :: [f1, f2])) := by
  by_cases h : 1000 ≤ d
  · obtain ⟨ip, f1, f2, heq, hne, hall, h1, h2⟩ :=
      fmt2_shape (d / 1000) (by positivity)
    refine ⟨ip, f1, f2, hne, hall, h1, h2, Or.inl ⟨h, ?_, heq⟩⟩
    simp only [format_duration]
    rw [if_pos h, heq]
    simp
  · obtain ⟨ip, f1, f2, heq, hne, hall, h1, h2⟩ := fmt2_shape d hd
    refine ⟨ip, f1, f2, hne, hall, h1, h2,
      Or.inr ⟨lt_of_not_le h, ?_, heq⟩⟩
    simp only [format_duration]
    rw [if_neg h, heq]
    simp

theorem format_duration_two_decimals_witness :
    format_duration 200000 = "200.00 ms".toList ∧ (0 : ℚ) ≤ 200000 ∧
      (∃ ip f1 f2, ip ≠ [] ∧ (∀ c ∈ ip, c.isDigit = true) ∧
        f1.isDigit = true ∧ f2.isDigit = true ∧
        ((1000 ≤ (200000 : ℚ) ∧
            format_duration 200000 = ip ++ '.' :: f1 :: f2 :: " ms".toList ∧
            fmt2 ((200000 : ℚ) / 1000) = ip ++ '.' :: [f1, f2]) ∨
          ((200000 : ℚ) < 1000 ∧
            format_duration 200000 = ip ++ '.' :: f1 :: f2 :: " µs".toList ∧
            fmt2 (200000 : ℚ) = ip ++ '.' :: [f1, f2]))) := by
  refine ⟨?_, by norm_num, format_duration_two_decimals 200000 (by norm_num)⟩
  have hr : roundHalfEven ((200 : ℚ) * 100) = 20000 := by
    unfold roundHalfEven
    rw [if_neg (by norm_num), round_eq]
    norm_num
  simp only [format_duration]
  rw [if_pos (by norm_num : (1000 : ℚ) ≤ 200000),
    show (200000 : ℚ) / 1000 = 200 from by norm_num]
  simp only [fmt2, hr]
  rfl

end FlightLog

/-! ## Claims C1, C2, C9: the analyzer run -/

namespace FlightLog

theorem npMean_single (x : ℚ) : npMean [x] = x := by
  simp [npMean]

theorem npVar_single (x : ℚ) : npVar [x] = 0 := by
  simp [npVar, npMean]

theorem npPercentile_single (x q : ℚ) : npPercentile [x] q = x := by
  norm_num [npPercentile, sortQ, List.insertionSort, List.orderedInsert]

theorem statsOf_single (op : Str) (p : ℕ × ℚ) :
    statsOf op [p] = ⟨op, p.2, 0, p.2, 1⟩ := by
  simp [statsOf, List.insertionSort, List.orderedInsert, npMean_single,
    npVar_single, npPercentile_single]

theorem statsOf_single_avg (op : Str) (p : ℕ × ℚ) :
    (statsOf op [p]).avg = p.2 := by
  rw [statsOf_single]

/-- C1: on a log whose two operations are "alpha" (mean 300 µs) and
"beta" (mean 100 µs), the printed report lists "beta" first even though
its mean is the smaller one: `averages.sort(key=lambda x: x,
reverse=True)` sorts the whole tuples, i.e. by descending operation
name, not by descending mean duration — contradicting the code's own
comment ("Sort by average duration") and its printed header ("ordered by
average duration"). -/
theorem report_order_bug :
    ∃ e1 e2,
      analyze_log_file (some
        ["2024-01-01T00:00:00Z - alpha in 300 µs".toList,
          "2024-01-01T00:00:01Z - beta in 100 µs".toList]) =
        RunResult.report [e1, e2] ∧
      e1.op = "beta".toList ∧ e2.op = "alpha".toList ∧
      e1.avg = 100 ∧ e2.avg = 300 ∧ e1.avg < e2.avg := by
  refine ⟨_, _, rfl, rfl, rfl, ?_, ?_, ?_⟩
  · rw [statsOf_single_avg]
    exact (by norm_num :
      ((100 : ℕ) : ℚ) + ((0 : ℕ) : ℚ) / (10 : ℚ) ^ (0 : ℕ) = (100 : ℚ))
  · rw [statsOf_single_avg]
    exact (by norm_num :
      ((300 : ℕ) : ℚ) + ((0 : ℕ) : ℚ) / (10 : ℚ) ^ (0 : ℕ) = (300 : ℚ))
  · rw [statsOf_single_avg, statsOf_single_avg]
    exact (by norm_num :
      ((100 : ℕ) : ℚ) + ((0 : ℕ) : ℚ) / (10 : ℚ) ^ (0 : ℕ) <
        ((300 : ℕ) : ℚ) + ((0 : ℕ) : ℚ) / (10 : ℚ) ^ (0 : ℕ))

/-- C2: a line whose duration text matches the regex but is not a valid
float ("1.2.3") raises an uncaught ValueError inside `parse_duration`;
the exception propagates to the `except Exception` handler of
`analyze_log_file`, which returns without printing any report — the
whole run is aborted by the single malformed line instead of skipping it
and reporting the statistics of the remaining valid lines. -/
theorem malformed_duration_aborts_run :
    parse_duration "1.2.3 ms".toList = Except.error "ValueError" ∧
    analyze_log_file (some
      ["2024-01-01T00:00:00Z - load in 100 ms".toList,
        "2024-01-01T00:00:01Z - task in 1.2.3 ms".toList]) =
      RunResult.abortedException :=
  ⟨rfl, rfl⟩

/-- C9 counterexample: on a missing log file `analyze_log_file` takes the
FileNotFoundError branch (logging and returning), and the process exit
status is 0, not non-zero. -/
theorem file_not_found_exit_zero_counterexample :
    analyze_log_file none = RunResult.fileNotFound ∧
      main_exit_code none = 0 :=
  ⟨rfl, rfl⟩

/-- C9 as amended: file-not-found is caught inside `analyze_log_file`,
which logs the error and returns without a report; the `__main__` block
then falls off the end of the script, so the process exits with status 0
on every outcome. -/
theorem file_not_found_logged_exit_zero :
    analyze_log_file none = RunResult.fileNotFound ∧
      ∀ file, main_exit_code file = 0 := by
  refine ⟨rfl, ?_⟩
  intro file
  unfold main_exit_code
  split <;> rfl

end FlightLog
